import Mathlib

/-!
Verification of the TGAI-Bennet conversation-context engine and module
supervisor against their natural-language specification.

The development shallowly embeds the relevant code:

* `src/utils/chat_history.py` (`ChatHistoryManager`): the tokenizer /
  estimator (`count_tokens`, `_estimate_tokens_by_chars`), the conversation
  store (`get_or_create_conversation`, `get_conversation_history`,
  `clear_chat_history`) and the context assembler (`create_chat_context`).
  The SQLite tables become explicit lists of records; a SQL
  `ORDER BY timestamp DESC LIMIT n` becomes an explicit descending
  insertion sort followed by `take`; `UPDATE messages SET token_count`
  statements are collected as `(id, count)` pairs and replayed over the
  message table.  The configured float `tokens_per_character` is embedded
  exactly as a ratio of two naturals `tpcNum / tpcDen` (default 1/4), so
  Python's `int(len(text) * tpc)` — truncation of a non-negative value —
  is natural-number floor division.  The external `tiktoken` encoder is an
  oracle `enc : Option (String → Nat)` (`none` models construction
  failure); `_get_tokenizer` consults it only for recognized model
  families.
* `src/core/module_manager.py`: the body of the `while True` loop of
  `_run_time_based_module` becomes the step function `timeStep` over an
  explicit scheduler state, and the class-discovery part of
  `_load_module_class` (lines 173-188) becomes `load_module_class` over
  the file's member classes, enumerated — as `inspect.getmembers` does —
  in ascending name order.
-/

namespace Bennet

/-! ## Tokenizer / estimator (`chat_history.py` lines 134-195) -/

/-- Configuration snapshot of `ChatHistoryManager.__init__` plus the
`tiktoken` oracle.  `tpcNum / tpcDen` embeds the float config value
`tokens_per_character` as an exact ratio. -/
structure Cfg where
  maxHistoryLength : Nat
  maxTokenLimit : Nat
  tokenSafetyMargin : Nat
  tpcNum : Nat
  tpcDen : Nat
  enc : Option (String → Nat)

/-- `str.lower()` on the underlying characters. -/
def lowerChars (s : String) : List Char :=
  s.data.map Char.toLower

/-- Python's substring test `pat in hay` on character lists. -/
def hasSubList (hay pat : List Char) : Bool :=
  (List.range (hay.length + 1)).any fun i => ((hay.drop i).take pat.length) == pat

/-- The model-family test of `_get_tokenizer`:
`"gpt" in model.lower() or "text-embedding" in model.lower()`. -/
def isKnownTokenizerModel (model : String) : Bool :=
  hasSubList (lowerChars model) "gpt".data ||
    hasSubList (lowerChars model) "text-embedding".data

/-- `_get_tokenizer`: for recognized families consult the `tiktoken`
oracle (which may itself fail, yielding `none`); for every other model
return `None`. -/
def get_tokenizer (cfg : Cfg) (model : String) : Option (String → Nat) :=
  if isKnownTokenizerModel model then cfg.enc else none

/-- `_estimate_tokens_by_chars`: `0` for empty text, otherwise
`max(1, int(len(text) * tokens_per_character))`. -/
def estimate_tokens_by_chars (cfg : Cfg) (text : String) : Nat :=
  if text = "" then 0
  else max 1 (text.length * cfg.tpcNum / cfg.tpcDen)

/-- `count_tokens`: use the model tokenizer when available, else fall
back to the character estimate. -/
def count_tokens (cfg : Cfg) (text : String) (model : String) : Nat :=
  match get_tokenizer cfg model with
  | some tok => tok text
  | none => estimate_tokens_by_chars cfg text

/-! ## Conversation store state -/

/-- A row of the `conversations` table. -/
structure Conversation where
  id : Nat
  chatId : Int
  lastMessageTime : Nat
deriving Repr, DecidableEq

/-- A row of the `messages` table (the unused `metadata` column is
omitted). -/
structure Message where
  id : Nat
  conversationId : Nat
  chatId : Int
  role : String
  content : String
  tokenCount : Option Nat
  timestamp : Nat
deriving Repr, DecidableEq

/-- The SQLite database contents. -/
structure DB where
  conversations : List Conversation
  messages : List Message
deriving Repr, DecidableEq

/-- Descending insertion by `timestamp` (strictly-newer goes in front,
so equal timestamps keep their relative order). -/
def insertTsDesc (m : Message) : List Message → List Message
  | [] => [m]
  | x :: xs => if x.timestamp < m.timestamp then m :: x :: xs else x :: insertTsDesc m xs

/-- `ORDER BY timestamp DESC`. -/
def sortTsDesc : List Message → List Message
  | [] => []
  | m :: ms => insertTsDesc m (sortTsDesc ms)

/-- `ORDER BY last_message_time DESC LIMIT 1` over a conversation set
(an earlier row wins a timestamp tie). -/
def mostRecentConversation : List Conversation → Option Conversation
  | [] => none
  | c :: cs =>
    match mostRecentConversation cs with
    | none => some c
    | some b => if c.lastMessageTime < b.lastMessageTime then some b else some c

/-- `AUTOINCREMENT` id for a fresh conversation row. -/
def nextConversationId (db : DB) : Nat :=
  (db.conversations.map (·.id)).foldl max 0 + 1

/-- `start_conversation`: insert a conversation row for the chat and
return its id (`now` stands for `CURRENT_TIMESTAMP`). -/
def start_conversation (db : DB) (chatId : Int) (now : Nat) : Nat × DB :=
  (nextConversationId db,
   { db with conversations := db.conversations ++ [⟨nextConversationId db, chatId, now⟩] })

/-- `get_or_create_conversation`: the most recent conversation of the
chat, or a fresh one. -/
def get_or_create_conversation (db : DB) (chatId : Int) (now : Nat) : Nat × DB :=
  match mostRecentConversation (db.conversations.filter fun c => c.chatId == chatId) with
  | some c => (c.id, db)
  | none => start_conversation db chatId now

/-! ## History retrieval (`get_conversation_history`, lines 345-455) -/

/-- The `SELECT ... WHERE conversation_id = ? [AND role != 'system']
ORDER BY timestamp DESC LIMIT max_messages` query. -/
def fetchMessages (db : DB) (conversationId : Nat) (includeSystem : Bool)
    (maxMessages : Nat) : List Message :=
  (sortTsDesc (db.messages.filter fun m =>
    m.conversationId == conversationId && (includeSystem || !(m.role == "system")))).take
    maxMessages

/-- The token count the processing loop uses for a message: the stored
count, else a fresh model count, else the character estimate. -/
def resolvedCount (cfg : Cfg) (model : Option String) (m : Message) : Nat :=
  match m.tokenCount with
  | some c => c
  | none =>
    match model with
    | some mdl => count_tokens cfg m.content mdl
    | none => estimate_tokens_by_chars cfg m.content

/-- The `UPDATE messages SET token_count = ? WHERE id = ?` statements a
message triggers: one exactly when its stored count is null and a model
id was supplied. -/
def backfills (cfg : Cfg) (model : Option String) (m : Message) : List (Nat × Nat) :=
  match m.tokenCount with
  | some _ => []
  | none =>
    match model with
    | some mdl => [(m.id, count_tokens cfg m.content mdl)]
    | none => []

/-- The newest-to-oldest processing loop of `get_conversation_history`:
walks the fetched rows accumulating `total_tokens`; a message whose
inclusion would exceed a positive budget stops the walk (`break`), but
its backfill `UPDATE` has already been issued.  Returns the kept
`(message, count)` pairs in scan order plus all issued updates. -/
def selectLoop (cfg : Cfg) (model : Option String) (budget : Nat) :
    List Message → Nat → List (Message × Nat) × List (Nat × Nat)
  | [], _ => ([], [])
  | m :: rest, total =>
    if 0 < budget ∧ total + resolvedCount cfg model m > budget then
      ([], backfills cfg model m)
    else
      ((m, resolvedCount cfg model m) ::
          (selectLoop cfg model budget rest (total + resolvedCount cfg model m)).1,
       backfills cfg model m ++
          (selectLoop cfg model budget rest (total + resolvedCount cfg model m)).2)

/-- Replay of one `UPDATE messages SET token_count = u.2 WHERE id = u.1`
on one row. -/
def updOne (u : Nat × Nat) (m : Message) : Message :=
  if m.id == u.1 then { m with tokenCount := some u.2 } else m

/-- Replay of a sequence of updates on one row. -/
def applyUpd (ups : List (Nat × Nat)) (m : Message) : Message :=
  ups.foldl (fun m u => updOne u m) m

/-- Replay of a sequence of updates on the whole table. -/
def applyUpdates (db : DB) (ups : List (Nat × Nat)) : DB :=
  { db with messages := db.messages.map (applyUpd ups) }

/-- An element of the list `get_conversation_history` returns (the
`metadata` key is omitted). -/
structure HistoryEntry where
  id : Nat
  role : String
  content : String
  timestamp : Nat
  tokenCount : Nat
deriving Repr, DecidableEq

/-- The dict built for a kept message. -/
def toHistoryEntry (p : Message × Nat) : HistoryEntry :=
  ⟨p.1.id, p.1.role, p.1.content, p.1.timestamp, p.2⟩

/-- Python's `x or default` for the optional int parameters: `None` and
`0` are falsy. -/
def resolveOrDefault (x : Option Nat) (d : Nat) : Nat :=
  match x with
  | none => d
  | some n => if n == 0 then d else n

/-- `get_conversation_history`.  Resolves `max_messages`/`max_tokens`
against the configured defaults, applies the safety margin
(`max(0, max_tokens - margin)` is natural subtraction), resolves the
conversation when none is given, fetches, runs the selection loop, and
returns the kept entries reversed into chronological order together with
the database after the backfill updates. -/
def get_conversation_history (cfg : Cfg) (db : DB) (chatId : Int) (now : Nat)
    (maxMessages : Option Nat) (includeSystem : Bool) (conversationId : Option Nat)
    (maxTokens : Option Nat) (model : Option String) : List HistoryEntry × DB :=
  let budget := resolveOrDefault maxTokens cfg.maxTokenLimit - cfg.tokenSafetyMargin
  let resolved :=
    match conversationId with
    | some cid => (cid, db)
    | none => get_or_create_conversation db chatId now
  let r := selectLoop cfg model budget
    (fetchMessages resolved.2 resolved.1 includeSystem
      (resolveOrDefault maxMessages cfg.maxHistoryLength)) 0
  ((r.1.map toHistoryEntry).reverse, applyUpdates resolved.2 r.2)

/-! ## Context assembly (`create_chat_context`, lines 457-517) -/

/-- A `{role, content}` pair handed to the LLM. -/
structure LLMMessage where
  role : String
  content : String
deriving Repr, DecidableEq

/-- What `create_chat_context` produces: the context list, the
`total_tokens` figure it computes (system message tokens plus the sum of
the history entries' token counts), and the database it leaves behind. -/
structure ChatContextResult where
  context : List LLMMessage
  totalTokens : Nat
  db : DB

/-- `create_chat_context`: retrieve history (conversation and
`max_messages` both unspecified), count the system message, and prepend
it to the history messages. -/
def create_chat_context (cfg : Cfg) (db : DB) (chatId : Int) (systemMessage : String)
    (model : Option String) (maxTokens : Option Nat) (includeSystem : Bool)
    (now : Nat) : ChatContextResult :=
  let r := get_conversation_history cfg db chatId now none includeSystem none maxTokens model
  { context := ⟨"system", systemMessage⟩ :: r.1.map fun m => ⟨m.role, m.content⟩,
    totalTokens :=
      (match model with
       | some mdl => count_tokens cfg systemMessage mdl
       | none => estimate_tokens_by_chars cfg systemMessage) +
        (r.1.map (·.tokenCount)).sum,
    db := r.2 }

/-! ## Clearing (`clear_chat_history`, lines 519-561) -/

/-- `clear_chat_history`: with a truthy conversation id, delete that
conversation's message rows (scoped to the chat); otherwise delete the
message rows of every conversation belonging to the chat.  Conversation
rows are never touched. -/
def clear_chat_history (db : DB) (chatId : Int) (conversationId : Option Nat) : DB :=
  if conversationId.getD 0 ≠ 0 then
    { db with messages := db.messages.filter fun m =>
        !(m.conversationId == conversationId.getD 0 && m.chatId == chatId) }
  else
    { db with messages := db.messages.filter fun m =>
        !(((db.conversations.filter fun c => c.chatId == chatId).map (·.id)).contains
          m.conversationId) }

/-! ## Time-triggered execution loop (`module_manager.py` lines 323-367) -/

/-- The loop-carried state of `_run_time_based_module`: the scheduled
`next_run`, the `retry_count`, and how many give-up notices (the
log/alert after `max_retries` is exhausted) have been emitted.  Run
failures never touch `module_errors`, so the notice count is the only
error signal the loop produces. -/
structure LoopState where
  nextRun : Nat
  retryCount : Nat
  giveUpNotices : Nat
deriving Repr, DecidableEq

/-- One poll tick of the loop body: nothing happens before `next_run`;
a successful `run()` resets the retry counter and schedules
`current_time + interval`; a failing `run()` within the retry budget
bumps the counter and `continue`s — leaving `next_run` unchanged —
while an exhausted one notifies, resets the counter, and falls through
to `next_run = current_time + interval`. -/
def timeStep (maxRetries interval : Nat) (now : Nat) (ok : Bool) (s : LoopState) :
    LoopState :=
  if now < s.nextRun then s
  else if ok then ⟨now + interval, 0, s.giveUpNotices⟩
  else if s.retryCount < maxRetries then ⟨s.nextRun, s.retryCount + 1, s.giveUpNotices⟩
  else ⟨now + interval, 0, s.giveUpNotices + 1⟩

/-! ## Module class discovery (`_load_module_class`, lines 150-192) -/

/-- What the discovery loop sees of a class defined in a candidate file:
its name, whether `issubclass(item, BaseModule)` holds, and whether
`item.__module__` is the file's own module. -/
structure PyClass where
  name : String
  subclassOfBaseModule : Bool
  definedInFile : Bool
deriving Repr, DecidableEq

/-- The qualification test of the discovery loop:
`item_name != 'BaseModule' and issubclass(item, BaseModule) and
item.__module__ == module.__name__`. -/
def qualifies (c : PyClass) : Bool :=
  !(c.name == "BaseModule") && c.subclassOfBaseModule && c.definedInFile

/-- Python's lexicographic (code-point) string ordering, the order
`sorted`/`list.sort` use on `str` keys. -/
def charListLt : List Char → List Char → Bool
  | [], [] => false
  | [], _ :: _ => true
  | _ :: _, [] => false
  | a :: as, b :: bs => a.toNat < b.toNat || (a.toNat == b.toNat && charListLt as bs)

/-- Ascending insertion by class name (`inspect.getmembers` sorts its
results by name). -/
def insertByName (c : PyClass) : List PyClass → List PyClass
  | [] => [c]
  | x :: xs =>
    if charListLt c.name.data x.name.data then c :: x :: xs else x :: insertByName c xs

/-- Name-sorted member enumeration, as `inspect.getmembers` yields it. -/
def sortMembersByName : List PyClass → List PyClass
  | [] => []
  | c :: cs => insertByName c (sortMembersByName cs)

/-- The class-search part of `_load_module_class`: scan the file's
classes in `getmembers` order and return the first qualifying one
(`break`), or raise `ModuleLoadError` when none qualifies. -/
def load_module_class (classes : List PyClass) : Except String PyClass :=
  match (sortMembersByName classes).find? qualifies with
  | some c => Except.ok c
  | none => Except.error "No valid module class found"

/-! ## Shared concrete instances used by witnesses and counterexamples -/

/-- A small configuration: defaults `max_history_length = 10`,
`max_token_limit = 8000`, `token_safety_margin = 200`,
`tokens_per_character = 1/4`, no `tiktoken` available. -/
def exCfg : Cfg := ⟨10, 8000, 200, 1, 4, none⟩

/-- One conversation of chat `7` holding one user message whose stored
token count is `10`. -/
def exDb : DB :=
  ⟨[⟨1, 7, 5⟩], [⟨1, 1, 7, "user", "hello", some 10, 5⟩]⟩

/-! ## Scheduler lemmas -/

theorem timeStep_not_due (mr iv now : Nat) (ok : Bool) (s : LoopState)
    (h : now < s.nextRun) : timeStep mr iv now ok s = s := by
  simp [timeStep, h]

theorem timeStep_success (mr iv now : Nat) (s : LoopState) (h : s.nextRun ≤ now) :
    timeStep mr iv now true s = ⟨now + iv, 0, s.giveUpNotices⟩ := by
  simp [timeStep, Nat.not_lt.mpr h]

theorem timeStep_fail_retry (mr iv now : Nat) (s : LoopState) (h : s.nextRun ≤ now)
    (hr : s.retryCount < mr) :
    timeStep mr iv now false s = ⟨s.nextRun, s.retryCount + 1, s.giveUpNotices⟩ := by
  simp [timeStep, Nat.not_lt.mpr h, hr]

theorem timeStep_fail_giveup (mr iv now : Nat) (s : LoopState) (h : s.nextRun ≤ now)
    (hr : mr ≤ s.retryCount) :
    timeStep mr iv now false s = ⟨now + iv, 0, s.giveUpNotices + 1⟩ := by
  simp [timeStep, Nat.not_lt.mpr h, Nat.not_lt.mpr hr]

/-- C4 counterexample: with `max_retries = 3`, `interval = 60`, a module
whose `next_run` was 10 and whose retries are exhausted
(`retry_count = 3`) fails again at time 10; the loop falls through to
`next_run = current_time + interval = 70` — it does **not** resume at
the originally scheduled `next_run = 10`. -/
theorem retry_reschedule_cex :
    (timeStep 3 60 10 false ⟨10, 3, 0⟩).nextRun = 70 ∧ (70 : Nat) ≠ 10 := by decide

/-- C4 (amended): when `run()` fails at a due tick, a retry within the
cap re-arms without advancing `next_run`; once the cap is exhausted the
counter is reset to zero and the schedule resumes at the **newly
computed** `current_time + interval` (the fall-through assignment), not
at the originally scheduled `next_run`. -/
theorem retry_without_advance_then_reschedule (maxRetries interval now : Nat)
    (s : LoopState) (hdue : s.nextRun ≤ now) :
    (s.retryCount < maxRetries →
      timeStep maxRetries interval now false s
        = ⟨s.nextRun, s.retryCount + 1, s.giveUpNotices⟩)
    ∧ (maxRetries ≤ s.retryCount →
      timeStep maxRetries interval now false s
        = ⟨now + interval, 0, s.giveUpNotices + 1⟩) :=
  ⟨fun hr => timeStep_fail_retry maxRetries interval now s hdue hr,
   fun hr => timeStep_fail_giveup maxRetries interval now s hdue hr⟩

theorem retry_without_advance_then_reschedule_witness :
    ((⟨5, 1, 0⟩ : LoopState).nextRun ≤ 10)
    ∧ ((1 < 3 → timeStep 3 60 10 false ⟨5, 1, 0⟩ = ⟨5, 2, 0⟩)
      ∧ (3 ≤ 1 → timeStep 3 60 10 false ⟨5, 1, 0⟩ = ⟨70, 0, 1⟩)) :=
  ⟨by decide, retry_without_advance_then_reschedule 3 60 10 ⟨5, 1, 0⟩ (by decide)⟩

/-- C7: with `interval = 60` and `max_retries = 3`, a module due at `n0`
whose `run()` fails at `t1` and `t2` and succeeds at `t3` ends with
`next_run = t3 + 60` (the successful invocation plus the interval, not
the first failed attempt plus 60), a reset retry counter, and zero
give-up error notices. -/
theorem fail_fail_success_schedule (n0 t1 t2 t3 : Nat)
    (h1 : n0 ≤ t1) (h12 : t1 ≤ t2) (h23 : t2 ≤ t3) :
    timeStep 3 60 t3 true (timeStep 3 60 t2 false (timeStep 3 60 t1 false ⟨n0, 0, 0⟩))
      = ⟨t3 + 60, 0, 0⟩ := by
  rw [timeStep_fail_retry 3 60 t1 ⟨n0, 0, 0⟩ h1 (by show (0:Nat) < 3; decide)]
  rw [timeStep_fail_retry 3 60 t2 ⟨n0, 1, 0⟩ (le_trans h1 h12) (by show (1:Nat) < 3; decide)]
  rw [timeStep_success 3 60 t3 ⟨n0, 2, 0⟩ (le_trans (le_trans h1 h12) h23)]

theorem fail_fail_success_schedule_witness :
    ((0 : Nat) ≤ 4 ∧ (4 : Nat) ≤ 9 ∧ (9 : Nat) ≤ 13)
    ∧ timeStep 3 60 13 true (timeStep 3 60 9 false (timeStep 3 60 4 false ⟨0, 0, 0⟩))
      = ⟨73, 0, 0⟩ :=
  ⟨by decide, fail_fail_success_schedule 0 4 9 13 (by decide) (by decide) (by decide)⟩

/-! ## Module class discovery lemmas -/

theorem insertByName_perm (c : PyClass) (l : List PyClass) :
    (insertByName c l).Perm (c :: l) := by
  induction l with
  | nil => exact List.Perm.refl _
  | cons x xs ih =>
    simp only [insertByName]
    split
    · exact List.Perm.refl _
    · exact (ih.cons x).trans (List.Perm.swap c x xs)

theorem sortMembersByName_perm (l : List PyClass) : (sortMembersByName l).Perm l := by
  induction l with
  | nil => exact List.Perm.refl _
  | cons c cs ih => exact (insertByName_perm c (sortMembersByName cs)).trans (ih.cons c)

/-- C5 counterexample: a file defining **two** qualifying classes is not
a load error — `_load_module_class` `break`s at the first qualifying
class in `getmembers` (name-sorted) order and returns it. -/
theorem load_module_class_two_qualifying_cex :
    (([⟨"AlphaModule", true, true⟩, ⟨"BetaModule", true, true⟩] : List PyClass).filter
        qualifies).length = 2
    ∧ load_module_class [⟨"AlphaModule", true, true⟩, ⟨"BetaModule", true, true⟩]
        = Except.ok ⟨"AlphaModule", true, true⟩ :=
  ⟨by decide, by rfl⟩

/-- C5 (amended): zero qualifying classes in a candidate file is a load
error, and that is the only load-error case of the class search; when
one or more classes qualify, the loader succeeds with the first
qualifying class in name-sorted member order (extra qualifying classes
are silently ignored, not an error). -/
theorem load_module_class_zero_error_else_first (classes : List PyClass) :
    ((∃ e, load_module_class classes = Except.error e)
        ↔ ∀ c ∈ classes, qualifies c = false)
    ∧ (∀ c, (sortMembersByName classes).find? qualifies = some c →
        load_module_class classes = Except.ok c) := by
  constructor
  · constructor
    · rintro ⟨e, he⟩ c hc
      unfold load_module_class at he
      cases hf : (sortMembersByName classes).find? qualifies with
      | some d => rw [hf] at he; exact absurd he (by simp)
      | none =>
        have := List.find?_eq_none.mp hf c
          (((sortMembersByName_perm classes).mem_iff).mpr hc)
        simpa using this
    · intro h
      unfold load_module_class
      cases hf : (sortMembersByName classes).find? qualifies with
      | some d =>
        have hd : qualifies d = true := List.find?_some hf
        have hmem : d ∈ classes :=
          ((sortMembersByName_perm classes).mem_iff).mp (List.mem_of_find?_eq_some hf)
        rw [h d hmem] at hd
        exact absurd hd (by simp)
      | none => exact ⟨_, rfl⟩
  · intro c h
    unfold load_module_class
    rw [h]

/-! ## Tokenizer lemmas -/

/-- C6: for any model identifier not recognized as a known tokenizer
family the fallback is unconditional (regardless of whether a `tiktoken`
encoder exists) and returns exactly `0` for empty text and
`max(1, floor(len(text) * tokens_per_character))` otherwise.  The
embedding is a total function, so no exception is possible on this
path. -/
theorem count_tokens_unknown_fallback (cfg : Cfg) (model text : String)
    (h : isKnownTokenizerModel model = false) :
    count_tokens cfg text model =
      if text = "" then 0
      else max 1 ⌊(text.length : ℚ) * ((cfg.tpcNum : ℚ) / (cfg.tpcDen : ℚ))⌋₊ := by
  unfold count_tokens get_tokenizer
  rw [h]
  simp only [Bool.false_eq_true, if_false]
  unfold estimate_tokens_by_chars
  by_cases ht : text = ""
  · simp [ht]
  · rw [if_neg ht, if_neg ht]
    have hcast : (text.length : ℚ) * ((cfg.tpcNum : ℚ) / (cfg.tpcDen : ℚ))
        = ((text.length * cfg.tpcNum : ℕ) : ℚ) / (cfg.tpcDen : ℚ) := by
      push_cast
      ring
    rw [hcast, Nat.floor_div_eq_div]

/-! ## Sorting lemmas -/

theorem mem_insertTsDesc {x m : Message} {l : List Message} :
    x ∈ insertTsDesc m l ↔ x = m ∨ x ∈ l := by
  induction l with
  | nil => simp [insertTsDesc]
  | cons y ys ih =>
    simp only [insertTsDesc]
    split
    · simp [List.mem_cons]
    · rw [List.mem_cons, List.mem_cons, ih]
      tauto

theorem insertTsDesc_pairwise (m : Message) (l : List Message)
    (h : l.Pairwise fun a b => b.timestamp ≤ a.timestamp) :
    (insertTsDesc m l).Pairwise fun a b => b.timestamp ≤ a.timestamp := by
  induction l with
  | nil => simp [insertTsDesc]
  | cons x xs ih =>
    rw [List.pairwise_cons] at h
    obtain ⟨hx, hxs⟩ := h
    simp only [insertTsDesc]
    split
    · rename_i hlt
      rw [List.pairwise_cons]
      refine ⟨?_, List.pairwise_cons.mpr ⟨hx, hxs⟩⟩
      intro b hb
      rcases List.mem_cons.mp hb with rfl | hb
      · exact le_of_lt hlt
      · exact le_trans (hx b hb) (le_of_lt hlt)
    · rename_i hnlt
      rw [List.pairwise_cons]
      refine ⟨?_, ih hxs⟩
      intro b hb
      rcases mem_insertTsDesc.mp hb with rfl | hb
      · exact Nat.le_of_not_lt hnlt
      · exact hx b hb

theorem sortTsDesc_pairwise (l : List Message) :
    (sortTsDesc l).Pairwise fun a b => b.timestamp ≤ a.timestamp := by
  induction l with
  | nil => simp [sortTsDesc]
  | cons m ms ih => exact insertTsDesc_pairwise m _ ih

theorem insertTsDesc_perm (m : Message) (l : List Message) :
    (insertTsDesc m l).Perm (m :: l) := by
  induction l with
  | nil => exact List.Perm.refl _
  | cons x xs ih =>
    simp only [insertTsDesc]
    split
    · exact List.Perm.refl _
    · exact (ih.cons x).trans (List.Perm.swap m x xs)

theorem sortTsDesc_perm (l : List Message) : (sortTsDesc l).Perm l := by
  induction l with
  | nil => exact List.Perm.refl _
  | cons m ms ih => exact (insertTsDesc_perm m _).trans (ih.cons m)

theorem insertTsDesc_map (f : Message → Message)
    (hf : ∀ m, (f m).timestamp = m.timestamp) (m : Message) (l : List Message) :
    insertTsDesc (f m) (l.map f) = (insertTsDesc m l).map f := by
  induction l with
  | nil => simp [insertTsDesc]
  | cons x xs ih =>
    by_cases hcond : x.timestamp < m.timestamp
    · simp [insertTsDesc, hf, hcond]
    · simp [insertTsDesc, hf, hcond, ih]

theorem sortTsDesc_map (f : Message → Message)
    (hf : ∀ m, (f m).timestamp = m.timestamp) (l : List Message) :
    sortTsDesc (l.map f) = (sortTsDesc l).map f := by
  induction l with
  | nil => rfl
  | cons m ms ih =>
    simp only [List.map_cons, sortTsDesc, ih]
    rw [insertTsDesc_map f hf]

theorem filter_map_eq {α β : Type _} (f : α → β) (p : β → Bool) (l : List α) :
    (l.map f).filter p = (l.filter fun x => p (f x)).map f := by
  induction l with
  | nil => rfl
  | cons x xs ih =>
    simp only [List.map_cons, List.filter_cons]
    split <;> simp_all

/-! ## Selection-loop lemmas -/

theorem selectLoop_fst_take (cfg : Cfg) (model : Option String) (budget : Nat) :
    ∀ (msgs : List Message) (total : Nat),
      ∃ n, ((selectLoop cfg model budget msgs total).1).map Prod.fst = msgs.take n := by
  intro msgs
  induction msgs with
  | nil => intro total; exact ⟨0, rfl⟩
  | cons m rest ih =>
    intro total
    simp only [selectLoop]
    split
    · exact ⟨0, by simp⟩
    · obtain ⟨n, hn⟩ := ih (total + resolvedCount cfg model m)
      exact ⟨n + 1, by simp [hn]⟩

theorem selectLoop_sum_le (cfg : Cfg) (model : Option String) (budget : Nat) :
    ∀ (msgs : List Message) (total : Nat), 0 < budget → total ≤ budget →
      total + (((selectLoop cfg model budget msgs total).1).map Prod.snd).sum ≤ budget := by
  intro msgs
  induction msgs with
  | nil => intro total _ htot; simpa [selectLoop] using htot
  | cons m rest ih =>
    intro total hb htot
    simp only [selectLoop]
    split
    · simpa using htot
    · rename_i hcond
      have hle : total + resolvedCount cfg model m ≤ budget := by
        rcases Nat.lt_or_ge budget (total + resolvedCount cfg model m) with hgt | hge
        · exact absurd ⟨hb, hgt⟩ hcond
        · exact hge
      have hrec := ih (total + resolvedCount cfg model m) hb hle
      simp only [List.map_cons, List.sum_cons]
      omega

theorem selectLoop_budget_zero (cfg : Cfg) (model : Option String) :
    ∀ (msgs : List Message) (total : Nat),
      ((selectLoop cfg model 0 msgs total).1).map Prod.fst = msgs := by
  intro msgs
  induction msgs with
  | nil => intro total; rfl
  | cons m rest ih =>
    intro total
    simp only [selectLoop]
    rw [if_neg (by simp)]
    simp [ih]

/-! ## History-shape lemmas -/

theorem entries_pairwise (cfg : Cfg) (model : Option String) (budget : Nat)
    (db2 : DB) (cid2 : Nat) (incSys : Bool) (mm2 : Nat) :
    ((((selectLoop cfg model budget (fetchMessages db2 cid2 incSys mm2) 0).1).map
        toHistoryEntry).reverse).Pairwise (fun a b => a.timestamp ≤ b.timestamp) := by
  have hsorted : (fetchMessages db2 cid2 incSys mm2).Pairwise
      (fun a b => b.timestamp ≤ a.timestamp) := by
    unfold fetchMessages
    exact (sortTsDesc_pairwise _).take
  obtain ⟨n, hn⟩ := selectLoop_fst_take cfg model budget (fetchMessages db2 cid2 incSys mm2) 0
  have h1 : (((selectLoop cfg model budget (fetchMessages db2 cid2 incSys mm2) 0).1).map
      Prod.fst).Pairwise (fun a b => b.timestamp ≤ a.timestamp) := by
    rw [hn]; exact hsorted.take
  have h2 : ((selectLoop cfg model budget (fetchMessages db2 cid2 incSys mm2) 0).1).Pairwise
      (fun p q => q.1.timestamp ≤ p.1.timestamp) := (List.pairwise_map).mp h1
  have h3 : (((selectLoop cfg model budget (fetchMessages db2 cid2 incSys mm2) 0).1).map
      toHistoryEntry).Pairwise (fun a b => b.timestamp ≤ a.timestamp) :=
    (List.pairwise_map).mpr h2
  exact (List.pairwise_reverse).mpr h3

theorem history_pairwise (cfg : Cfg) (db : DB) (chatId : Int) (now : Nat)
    (mm : Option Nat) (incSys : Bool) (convId : Option Nat) (mt : Option Nat)
    (model : Option String) :
    ((get_conversation_history cfg db chatId now mm incSys convId mt model).1).Pairwise
      (fun a b => a.timestamp ≤ b.timestamp) := by
  cases convId with
  | none =>
    unfold get_conversation_history
    exact entries_pairwise cfg model _ _ _ incSys _
  | some c =>
    unfold get_conversation_history
    exact entries_pairwise cfg model _ db c incSys _

/-- C3: `get_conversation_history` always returns entries in
non-decreasing timestamp order despite the newest-first internal scan,
and the context `create_chat_context` assembles is the caller's system
message first, followed by exactly those chronologically ordered history
entries. -/
theorem chronological_output (cfg : Cfg) (db : DB) (chatId : Int) (now : Nat)
    (mm : Option Nat) (incSys : Bool) (convId : Option Nat) (mt : Option Nat)
    (model : Option String) (sys : String) :
    ((get_conversation_history cfg db chatId now mm incSys convId mt model).1).Pairwise
      (fun a b => a.timestamp ≤ b.timestamp)
    ∧ ∃ hist : List HistoryEntry,
        hist.Pairwise (fun a b => a.timestamp ≤ b.timestamp)
        ∧ (create_chat_context cfg db chatId sys model mt incSys now).context
            = ⟨"system", sys⟩ :: hist.map fun m => ⟨m.role, m.content⟩ :=
  ⟨history_pairwise cfg db chatId now mm incSys convId mt model,
   (get_conversation_history cfg db chatId now none incSys none mt model).1,
   history_pairwise cfg db chatId now none incSys none mt model, rfl⟩

/-- C2: the kept window is a take-prefix of the newest-first fetched
rows — whenever a message is dropped for the token budget every older
message is dropped with it, and the (chronological) output is the exact
reverse of that prefix, so no gaps can occur. -/
theorem truncation_contiguous (cfg : Cfg) (db : DB) (chatId : Int) (now : Nat)
    (mm : Option Nat) (incSys : Bool) (cid : Nat) (mt : Option Nat)
    (model : Option String) :
    ∃ n, ((get_conversation_history cfg db chatId now mm incSys (some cid) mt model).1).map
        (·.id)
      = (((fetchMessages db cid incSys (resolveOrDefault mm cfg.maxHistoryLength)).take n).map
          (·.id)).reverse := by
  obtain ⟨n, hn⟩ := selectLoop_fst_take cfg model
    (resolveOrDefault mt cfg.maxTokenLimit - cfg.tokenSafetyMargin)
    (fetchMessages db cid incSys (resolveOrDefault mm cfg.maxHistoryLength)) 0
  refine ⟨n, ?_⟩
  unfold get_conversation_history
  rw [List.map_reverse]
  congr 1
  conv_rhs => rw [← hn]
  rw [List.map_map, List.map_map]
  rfl

/-- C1 counterexample: with `token_safety_margin = 200` and caller
budget `210` the history loop is capped at 10 tokens and fills the cap
with a stored 10-token message, but the system message ("hi there",
estimated at 2 tokens) is prepended without being counted against the
budget: the assembled context totals 12 tokens, exceeding
`max_token_budget − token_safety_margin = 10`. -/
theorem token_budget_containment_cex :
    resolveOrDefault (some 210) exCfg.maxTokenLimit - exCfg.tokenSafetyMargin
      < (create_chat_context exCfg exDb 7 "hi there" none (some 210) true 6).totalTokens := by
  decide

/-- C1 (amended): only the **selected history** is kept within
`max_token_budget − token_safety_margin` (whenever that bound is
positive); the prepended system message is not counted against the
budget, so the assembled context's total is only bounded by the system
message's own token count **plus** the margin-adjusted budget. -/
theorem token_budget_history_only (cfg : Cfg) (db : DB) (chatId : Int) (now : Nat)
    (sys : String) (model : Option String) (mt : Option Nat) (incSys : Bool)
    (h : cfg.tokenSafetyMargin < resolveOrDefault mt cfg.maxTokenLimit) :
    (create_chat_context cfg db chatId sys model mt incSys now).totalTokens
      ≤ (match model with
         | some mdl => count_tokens cfg sys mdl
         | none => estimate_tokens_by_chars cfg sys)
        + (resolveOrDefault mt cfg.maxTokenLimit - cfg.tokenSafetyMargin) := by
  have hb : 0 < resolveOrDefault mt cfg.maxTokenLimit - cfg.tokenSafetyMargin :=
    Nat.sub_pos_of_lt h
  unfold create_chat_context
  apply Nat.add_le_add_left
  unfold get_conversation_history
  rw [List.map_reverse, List.sum_reverse, List.map_map]
  have hsum := selectLoop_sum_le cfg model
    (resolveOrDefault mt cfg.maxTokenLimit - cfg.tokenSafetyMargin)
    (fetchMessages
      (match (none : Option Nat) with
       | some cid => (cid, db)
       | none => get_or_create_conversation db chatId now).2
      (match (none : Option Nat) with
       | some cid => (cid, db)
       | none => get_or_create_conversation db chatId now).1
      incSys (resolveOrDefault none cfg.maxHistoryLength)) 0 hb (Nat.zero_le _)
  simpa using hsum

theorem token_budget_history_only_witness :
    exCfg.tokenSafetyMargin < resolveOrDefault (some 210) exCfg.maxTokenLimit
    ∧ (create_chat_context exCfg exDb 7 "hi there" none (some 210) true 6).totalTokens
      ≤ (match (none : Option String) with
         | some mdl => count_tokens exCfg "hi there" mdl
         | none => estimate_tokens_by_chars exCfg "hi there")
        + (resolveOrDefault (some 210) exCfg.maxTokenLimit - exCfg.tokenSafetyMargin) :=
  ⟨by decide,
   token_budget_history_only exCfg exDb 7 6 "hi there" none (some 210) true (by decide)⟩

/-! ## Default resolution lemmas -/

theorem resolveOrDefault_none (d : Nat) : resolveOrDefault none d = d := rfl

theorem resolveOrDefault_zero (d : Nat) : resolveOrDefault (some 0) d = d := rfl

theorem resolveOrDefault_self (d : Nat) : resolveOrDefault (some d) d = d := by
  show (if (d == 0) = true then d else d) = d
  split <;> rfl

/-- C10: a `max_tokens` of `None` or `0` resolves to the configured
`max_token_limit` before the margin is subtracted, and whenever the
resolved budget minus `token_safety_margin` is not positive (natural
subtraction yields 0) the token check is skipped entirely — the window
is every fetched row, bounded only by `max_messages`. -/
theorem budget_default_and_skip (cfg : Cfg) (db : DB) (chatId : Int) (now : Nat)
    (mm : Option Nat) (incSys : Bool) (convId : Option Nat) (model : Option String)
    (mt : Option Nat) (cid : Nat)
    (h : resolveOrDefault mt cfg.maxTokenLimit ≤ cfg.tokenSafetyMargin) :
    (get_conversation_history cfg db chatId now mm incSys convId none model
      = get_conversation_history cfg db chatId now mm incSys convId
          (some cfg.maxTokenLimit) model)
    ∧ (get_conversation_history cfg db chatId now mm incSys convId (some 0) model
      = get_conversation_history cfg db chatId now mm incSys convId
          (some cfg.maxTokenLimit) model)
    ∧ ((get_conversation_history cfg db chatId now mm incSys (some cid) mt model).1).map
        (·.id)
      = ((fetchMessages db cid incSys (resolveOrDefault mm cfg.maxHistoryLength)).map
          (·.id)).reverse := by
  refine ⟨?_, ?_, ?_⟩
  · unfold get_conversation_history
    rw [resolveOrDefault_none, resolveOrDefault_self]
  · unfold get_conversation_history
    rw [resolveOrDefault_zero, resolveOrDefault_self]
  · have hzero : resolveOrDefault mt cfg.maxTokenLimit - cfg.tokenSafetyMargin = 0 :=
      Nat.sub_eq_zero_of_le h
    unfold get_conversation_history
    rw [hzero, List.map_reverse]
    congr 1
    conv_rhs => rw [← selectLoop_budget_zero cfg model
      (fetchMessages db cid incSys (resolveOrDefault mm cfg.maxHistoryLength)) 0]
    rw [List.map_map, List.map_map]
    rfl

theorem budget_default_and_skip_witness :
    resolveOrDefault (some 150) exCfg.maxTokenLimit ≤ exCfg.tokenSafetyMargin
    ∧ ((get_conversation_history exCfg exDb 7 6 none true none none none
        = get_conversation_history exCfg exDb 7 6 none true none
            (some exCfg.maxTokenLimit) none)
      ∧ (get_conversation_history exCfg exDb 7 6 none true none (some 0) none
        = get_conversation_history exCfg exDb 7 6 none true none
            (some exCfg.maxTokenLimit) none)
      ∧ ((get_conversation_history exCfg exDb 7 6 none true (some 1) (some 150) none).1).map
          (·.id)
        = ((fetchMessages exDb 1 true (resolveOrDefault none exCfg.maxHistoryLength)).map
            (·.id)).reverse) :=
  ⟨by decide, budget_default_and_skip exCfg exDb 7 6 none true none none (some 150) 1
    (by decide)⟩

theorem count_tokens_unknown_fallback_witness :
    isKnownTokenizerModel "claude-3" = false
    ∧ count_tokens exCfg "hello" "claude-3" =
        if ("hello" : String) = "" then 0
        else max 1 ⌊(("hello" : String).length : ℚ) * ((exCfg.tpcNum : ℚ) / (exCfg.tpcDen : ℚ))⌋₊ :=
  ⟨by decide, count_tokens_unknown_fallback exCfg "claude-3" "hello" (by decide)⟩

/-! ## Update-replay lemmas (for the lazy-backfill claims) -/

theorem applyUpd_nil (m : Message) : applyUpd [] m = m := rfl

theorem applyUpd_cons (u : Nat × Nat) (us : List (Nat × Nat)) (m : Message) :
    applyUpd (u :: us) m = applyUpd us (updOne u m) := rfl

theorem applyUpd_append (us vs : List (Nat × Nat)) (m : Message) :
    applyUpd (us ++ vs) m = applyUpd vs (applyUpd us m) := by
  simp [applyUpd, List.foldl_append]

theorem updOne_fields (u : Nat × Nat) (m : Message) :
    (updOne u m).id = m.id ∧ (updOne u m).conversationId = m.conversationId ∧
    (updOne u m).chatId = m.chatId ∧ (updOne u m).role = m.role ∧
    (updOne u m).content = m.content ∧ (updOne u m).timestamp = m.timestamp := by
  unfold updOne
  split <;> simp

theorem applyUpd_fields (us : List (Nat × Nat)) (m : Message) :
    (applyUpd us m).id = m.id ∧ (applyUpd us m).conversationId = m.conversationId ∧
    (applyUpd us m).chatId = m.chatId ∧ (applyUpd us m).role = m.role ∧
    (applyUpd us m).content = m.content ∧ (applyUpd us m).timestamp = m.timestamp := by
  induction us generalizing m with
  | nil => simp [applyUpd_nil]
  | cons u us ih =>
    rw [applyUpd_cons]
    obtain ⟨h1, h2, h3, h4, h5, h6⟩ := ih (updOne u m)
    obtain ⟨g1, g2, g3, g4, g5, g6⟩ := updOne_fields u m
    exact ⟨h1.trans g1, h2.trans g2, h3.trans g3, h4.trans g4, h5.trans g5, h6.trans g6⟩

theorem applyUpd_not_mem (us : List (Nat × Nat)) (m : Message)
    (h : m.id ∉ us.map Prod.fst) : applyUpd us m = m := by
  induction us with
  | nil => rfl
  | cons u us ih =>
    rw [applyUpd_cons]
    simp only [List.map_cons, List.mem_cons] at h
    push_neg at h
    have hm : updOne u m = m := by
      simp [updOne, h.1]
    rw [hm]
    exact ih h.2

theorem backfills_ids (cfg : Cfg) (model : Option String) (m : Message) (p : Nat × Nat)
    (hp : p ∈ backfills cfg model m) : p.1 = m.id := by
  unfold backfills at hp
  cases hm : m.tokenCount with
  | some c => rw [hm] at hp; simp at hp
  | none =>
    rw [hm] at hp
    cases model with
    | none => simp at hp
    | some mdl =>
      simp only [List.mem_singleton] at hp
      rw [hp]

theorem selectLoop_ups_ids (cfg : Cfg) (model : Option String) (budget : Nat) :
    ∀ (msgs : List Message) (total : Nat) (p : Nat × Nat),
      p ∈ (selectLoop cfg model budget msgs total).2 → p.1 ∈ msgs.map (·.id) := by
  intro msgs
  induction msgs with
  | nil => intro total p hp; simp [selectLoop] at hp
  | cons m rest ih =>
    intro total p hp
    simp only [selectLoop] at hp
    split at hp
    · simp only [List.map_cons, List.mem_cons]
      exact Or.inl (backfills_ids cfg model m p hp)
    · simp only [List.mem_append] at hp
      rcases hp with hp | hp
      · simp only [List.map_cons, List.mem_cons]
        exact Or.inl (backfills_ids cfg model m p hp)
      · simp only [List.map_cons, List.mem_cons]
        exact Or.inr (ih _ p hp)

theorem fetchMessages_applyUpdates (db : DB) (ups : List (Nat × Nat)) (cid : Nat)
    (incSys : Bool) (mm : Nat) :
    fetchMessages (applyUpdates db ups) cid incSys mm
      = (fetchMessages db cid incSys mm).map (applyUpd ups) := by
  unfold fetchMessages applyUpdates
  rw [filter_map_eq]
  have hpred : (fun x => (fun m : Message =>
        m.conversationId == cid && (incSys || !(m.role == "system"))) (applyUpd ups x))
      = fun m : Message => m.conversationId == cid && (incSys || !(m.role == "system")) := by
    funext x
    obtain ⟨_, h2, _, h4, _, _⟩ := applyUpd_fields ups x
    simp only [h2, h4]
  rw [hpred]
  rw [sortTsDesc_map (applyUpd ups) (fun m => (applyUpd_fields ups m).2.2.2.2.2)]
  rw [List.map_take]

theorem fetchMessages_ids_nodup (db : DB) (cid : Nat) (incSys : Bool) (mm : Nat)
    (h : (db.messages.map (·.id)).Nodup) :
    ((fetchMessages db cid incSys mm).map (·.id)).Nodup := by
  unfold fetchMessages
  have h1 : (((db.messages.filter fun m =>
      m.conversationId == cid && (incSys || !(m.role == "system"))).map (·.id))).Nodup :=
    h.sublist ((List.filter_sublist _).map _)
  have h2 : (((sortTsDesc (db.messages.filter fun m =>
      m.conversationId == cid && (incSys || !(m.role == "system")))).map (·.id))).Nodup :=
    (((sortTsDesc_perm _).map _).nodup_iff).mpr h1
  rw [List.map_take]
  exact h2.sublist (List.take_sublist mm _)

theorem resolvedCount_of_some (cfg : Cfg) (model : Option String) (m : Message) (c : Nat)
    (h : m.tokenCount = some c) : resolvedCount cfg model m = c := by
  unfold resolvedCount
  rw [h]

theorem backfills_of_some (cfg : Cfg) (model : Option String) (m : Message) (c : Nat)
    (h : m.tokenCount = some c) : backfills cfg model m = [] := by
  unfold backfills
  rw [h]

theorem applyUpd_self_backfill_token (cfg : Cfg) (mdl : String) (m : Message) :
    (applyUpd (backfills cfg (some mdl) m) m).tokenCount
      = some (resolvedCount cfg (some mdl) m) := by
  cases hm : m.tokenCount with
  | none => simp [backfills, resolvedCount, hm, applyUpd_cons, applyUpd_nil, updOne]
  | some c => simp [backfills, resolvedCount, hm, applyUpd_nil]

theorem resolvedCount_self_backfill (cfg : Cfg) (mdl : String) (m : Message) :
    resolvedCount cfg (some mdl) (applyUpd (backfills cfg (some mdl) m) m)
      = resolvedCount cfg (some mdl) m :=
  resolvedCount_of_some _ _ _ _ (applyUpd_self_backfill_token cfg mdl m)

theorem backfills_self_backfill (cfg : Cfg) (mdl : String) (m : Message) :
    backfills cfg (some mdl) (applyUpd (backfills cfg (some mdl) m) m) = [] :=
  backfills_of_some _ _ _ _ (applyUpd_self_backfill_token cfg mdl m)

theorem toHistoryEntry_applyUpd (us : List (Nat × Nat)) (m : Message) (c : Nat) :
    toHistoryEntry (applyUpd us m, c) = toHistoryEntry (m, c) := by
  obtain ⟨h1, _, _, h4, h5, h6⟩ := applyUpd_fields us m
  unfold toHistoryEntry
  simp only [h1, h4, h5, h6]

theorem applyUpdates_nil (db : DB) : applyUpdates db [] = db := by
  unfold applyUpdates
  have h : db.messages.map (applyUpd []) = db.messages := List.map_id db.messages
  rw [h]

/-- Re-running the selection loop on the table produced by its own
backfill updates keeps every message it kept (with the same token
counts) and issues no further update. -/
theorem selectLoop_stable (cfg : Cfg) (mdl : String) (budget : Nat) :
    ∀ (msgs : List Message) (total : Nat), ((msgs.map (·.id)).Nodup) →
      (((selectLoop cfg (some mdl) budget
          (msgs.map (applyUpd (selectLoop cfg (some mdl) budget msgs total).2)) total).1).map
          toHistoryEntry
        = ((selectLoop cfg (some mdl) budget msgs total).1).map toHistoryEntry)
      ∧ (selectLoop cfg (some mdl) budget
          (msgs.map (applyUpd (selectLoop cfg (some mdl) budget msgs total).2)) total).2
        = [] := by
  intro msgs
  induction msgs with
  | nil => intro total _; exact ⟨rfl, rfl⟩
  | cons m rest ih =>
    intro total hN
    simp only [List.map_cons, List.nodup_cons] at hN
    obtain ⟨hmid, hNrest⟩ := hN
    by_cases hc : 0 < budget ∧ total + resolvedCount cfg (some mdl) m > budget
    · have houter : selectLoop cfg (some mdl) budget (m :: rest) total
          = ([], backfills cfg (some mdl) m) := by
        simp only [selectLoop]
        rw [if_pos hc]
      rw [houter]
      have hres : resolvedCount cfg (some mdl)
            (applyUpd (backfills cfg (some mdl) m) m)
          = resolvedCount cfg (some mdl) m := resolvedCount_self_backfill cfg mdl m
      have hinner : selectLoop cfg (some mdl) budget
            ((m :: rest).map (applyUpd (backfills cfg (some mdl) m))) total
          = ([], backfills cfg (some mdl)
              (applyUpd (backfills cfg (some mdl) m) m)) := by
        simp only [List.map_cons, selectLoop]
        rw [hres, if_pos hc]
      rw [hinner, backfills_self_backfill cfg mdl m]
      exact ⟨rfl, rfl⟩
    · have houter : selectLoop cfg (some mdl) budget (m :: rest) total
          = ((m, resolvedCount cfg (some mdl) m) ::
              (selectLoop cfg (some mdl) budget rest
                (total + resolvedCount cfg (some mdl) m)).1,
             backfills cfg (some mdl) m ++
              (selectLoop cfg (some mdl) budget rest
                (total + resolvedCount cfg (some mdl) m)).2) := by
        simp only [selectLoop]
        rw [if_neg hc]
      rw [houter]
      have hhead : applyUpd (backfills cfg (some mdl) m ++
            (selectLoop cfg (some mdl) budget rest
              (total + resolvedCount cfg (some mdl) m)).2) m
          = applyUpd (backfills cfg (some mdl) m) m := by
        rw [applyUpd_append]
        apply applyUpd_not_mem
        rw [(applyUpd_fields _ m).1]
        intro hmem
        obtain ⟨p, hp, hpid⟩ := List.mem_map.mp hmem
        have hin := selectLoop_ups_ids cfg (some mdl) budget rest
          (total + resolvedCount cfg (some mdl) m) p hp
        rw [hpid] at hin
        exact hmid hin
      have htail : rest.map (applyUpd (backfills cfg (some mdl) m ++
            (selectLoop cfg (some mdl) budget rest
              (total + resolvedCount cfg (some mdl) m)).2))
          = rest.map (applyUpd
              (selectLoop cfg (some mdl) budget rest
                (total + resolvedCount cfg (some mdl) m)).2) := by
        apply List.map_congr_left
        intro x hx
        rw [applyUpd_append]
        congr 1
        apply applyUpd_not_mem
        intro hmem
        obtain ⟨p, hp, hpid⟩ := List.mem_map.mp hmem
        have hpm := backfills_ids cfg (some mdl) m p hp
        have hxid : x.id = m.id := by rw [← hpid, hpm]
        exact hmid (hxid ▸ List.mem_map_of_mem (·.id) hx)
      rw [List.map_cons, hhead, htail]
      have hres : resolvedCount cfg (some mdl)
            (applyUpd (backfills cfg (some mdl) m) m)
          = resolvedCount cfg (some mdl) m := resolvedCount_self_backfill cfg mdl m
      have hinner : selectLoop cfg (some mdl) budget
            (applyUpd (backfills cfg (some mdl) m) m ::
              rest.map (applyUpd (selectLoop cfg (some mdl) budget rest
                (total + resolvedCount cfg (some mdl) m)).2)) total
          = ((applyUpd (backfills cfg (some mdl) m) m,
                resolvedCount cfg (some mdl) m) ::
              (selectLoop cfg (some mdl) budget
                (rest.map (applyUpd (selectLoop cfg (some mdl) budget rest
                  (total + resolvedCount cfg (some mdl) m)).2))
                (total + resolvedCount cfg (some mdl) m)).1,
             backfills cfg (some mdl) (applyUpd (backfills cfg (some mdl) m) m) ++
              (selectLoop cfg (some mdl) budget
                (rest.map (applyUpd (selectLoop cfg (some mdl) budget rest
                  (total + resolvedCount cfg (some mdl) m)).2))
                (total + resolvedCount cfg (some mdl) m)).2) := by
        simp only [selectLoop]
        rw [hres, if_neg hc]
      rw [hinner, backfills_self_backfill cfg mdl m]
      obtain ⟨ih1, ih2⟩ := ih (total + resolvedCount cfg (some mdl) m) hNrest
      constructor
      · simp only [List.map_cons]
        rw [toHistoryEntry_applyUpd, ih1]
      · simp only [List.nil_append]
        exact ih2

/-- C8: with message ids unique (the primary-key invariant), reading
the same conversation twice with the same model id returns identical
entries — token counts included — and the second read leaves the
database exactly as the first left it: the first read backfilled every
null token count it processed, so the second finds none null. -/
theorem idempotent_read_backfill (cfg : Cfg) (db : DB) (chatId : Int) (now : Nat)
    (mm : Option Nat) (incSys : Bool) (cid : Nat) (mt : Option Nat) (mdl : String)
    (hids : (db.messages.map (·.id)).Nodup) :
    ((get_conversation_history cfg
        (get_conversation_history cfg db chatId now mm incSys (some cid) mt (some mdl)).2
        chatId now mm incSys (some cid) mt (some mdl)).1
      = (get_conversation_history cfg db chatId now mm incSys (some cid) mt (some mdl)).1)
    ∧ (get_conversation_history cfg
        (get_conversation_history cfg db chatId now mm incSys (some cid) mt (some mdl)).2
        chatId now mm incSys (some cid) mt (some mdl)).2
      = (get_conversation_history cfg db chatId now mm incSys (some cid) mt (some mdl)).2 := by
  have hfetch2 : fetchMessages
        (applyUpdates db (selectLoop cfg (some mdl)
          (resolveOrDefault mt cfg.maxTokenLimit - cfg.tokenSafetyMargin)
          (fetchMessages db cid incSys (resolveOrDefault mm cfg.maxHistoryLength)) 0).2)
        cid incSys (resolveOrDefault mm cfg.maxHistoryLength)
      = (fetchMessages db cid incSys (resolveOrDefault mm cfg.maxHistoryLength)).map
          (applyUpd (selectLoop cfg (some mdl)
            (resolveOrDefault mt cfg.maxTokenLimit - cfg.tokenSafetyMargin)
            (fetchMessages db cid incSys (resolveOrDefault mm cfg.maxHistoryLength)) 0).2) :=
    fetchMessages_applyUpdates db _ cid incSys _
  have hNf : ((fetchMessages db cid incSys
      (resolveOrDefault mm cfg.maxHistoryLength)).map (·.id)).Nodup :=
    fetchMessages_ids_nodup db cid incSys _ hids
  obtain ⟨st1, st2⟩ := selectLoop_stable cfg mdl
    (resolveOrDefault mt cfg.maxTokenLimit - cfg.tokenSafetyMargin)
    (fetchMessages db cid incSys (resolveOrDefault mm cfg.maxHistoryLength)) 0 hNf
  constructor
  · show ((selectLoop cfg (some mdl)
        (resolveOrDefault mt cfg.maxTokenLimit - cfg.tokenSafetyMargin)
        (fetchMessages
          (applyUpdates db (selectLoop cfg (some mdl)
            (resolveOrDefault mt cfg.maxTokenLimit - cfg.tokenSafetyMargin)
            (fetchMessages db cid incSys (resolveOrDefault mm cfg.maxHistoryLength)) 0).2)
          cid incSys (resolveOrDefault mm cfg.maxHistoryLength)) 0).1.map
        toHistoryEntry).reverse
      = ((selectLoop cfg (some mdl)
          (resolveOrDefault mt cfg.maxTokenLimit - cfg.tokenSafetyMargin)
          (fetchMessages db cid incSys (resolveOrDefault mm cfg.maxHistoryLength)) 0).1.map
          toHistoryEntry).reverse
    rw [hfetch2, st1]
  · show applyUpdates
        (applyUpdates db (selectLoop cfg (some mdl)
          (resolveOrDefault mt cfg.maxTokenLimit - cfg.tokenSafetyMargin)
          (fetchMessages db cid incSys (resolveOrDefault mm cfg.maxHistoryLength)) 0).2)
        (selectLoop cfg (some mdl)
          (resolveOrDefault mt cfg.maxTokenLimit - cfg.tokenSafetyMargin)
          (fetchMessages
            (applyUpdates db (selectLoop cfg (some mdl)
              (resolveOrDefault mt cfg.maxTokenLimit - cfg.tokenSafetyMargin)
              (fetchMessages db cid incSys (resolveOrDefault mm cfg.maxHistoryLength)) 0).2)
            cid incSys (resolveOrDefault mm cfg.maxHistoryLength)) 0).2
      = applyUpdates db (selectLoop cfg (some mdl)
          (resolveOrDefault mt cfg.maxTokenLimit - cfg.tokenSafetyMargin)
          (fetchMessages db cid incSys (resolveOrDefault mm cfg.maxHistoryLength)) 0).2
    rw [hfetch2, st2, applyUpdates_nil]

theorem idempotent_read_backfill_witness :
    ((exDb.messages.map (·.id)).Nodup)
    ∧ (((get_conversation_history exCfg
          (get_conversation_history exCfg exDb 7 6 none true (some 1) none
            (some "claude-3")).2
          7 6 none true (some 1) none (some "claude-3")).1
        = (get_conversation_history exCfg exDb 7 6 none true (some 1) none
            (some "claude-3")).1)
      ∧ (get_conversation_history exCfg
          (get_conversation_history exCfg exDb 7 6 none true (some 1) none
            (some "claude-3")).2
          7 6 none true (some 1) none (some "claude-3")).2
        = (get_conversation_history exCfg exDb 7 6 none true (some 1) none
            (some "claude-3")).2) :=
  ⟨by decide,
   idempotent_read_backfill exCfg exDb 7 6 none true 1 none "claude-3" (by decide)⟩

/-- C9: clearing a chat's history without naming a conversation deletes
the message rows of every conversation belonging to the chat — so a
subsequent `get_conversation_history` for any conversation id that
belonged to that chat returns the empty list — while the conversation
rows themselves are left unchanged. -/
theorem clear_history_complete (cfg : Cfg) (db : DB) (chatId : Int) (now : Nat)
    (mm : Option Nat) (incSys : Bool) (cid : Nat) (mt : Option Nat)
    (model : Option String)
    (h : ∃ c ∈ db.conversations, c.chatId = chatId ∧ c.id = cid) :
    (get_conversation_history cfg (clear_chat_history db chatId none) chatId now mm incSys
        (some cid) mt model).1 = []
    ∧ (clear_chat_history db chatId none).conversations = db.conversations := by
  obtain ⟨c, hcmem, hcchat, hcid⟩ := h
  have hclear : clear_chat_history db chatId none
      = { db with messages := db.messages.filter fun m =>
          !(((db.conversations.filter fun c => c.chatId == chatId).map (·.id)).contains
            m.conversationId) } := by
    unfold clear_chat_history
    rw [if_neg (by simp)]
  refine ⟨?_, by rw [hclear]⟩
  rw [hclear]
  have hcid_mem : cid ∈ (db.conversations.filter fun c => c.chatId == chatId).map (·.id) :=
    List.mem_map.mpr ⟨c, List.mem_filter.mpr ⟨hcmem, by simp [hcchat]⟩, hcid⟩
  have hempty : (db.messages.filter fun m =>
        !(((db.conversations.filter fun c => c.chatId == chatId).map (·.id)).contains
          m.conversationId)).filter
        (fun m => m.conversationId == cid && (incSys || !(m.role == "system"))) = [] := by
    rw [List.filter_filter]
    rw [List.filter_eq_nil_iff]
    intro m hm
    intro hcontra
    simp only [Bool.and_eq_true, beq_iff_eq, Bool.not_eq_true'] at hcontra
    obtain ⟨⟨hconv, _⟩, hnotin⟩ := hcontra
    rw [hconv] at hnotin
    have hc2 : ((db.conversations.filter fun c => c.chatId == chatId).map
        (·.id)).contains cid = true := List.elem_iff.mpr hcid_mem
    rw [hc2] at hnotin
    exact absurd hnotin (by decide)
  unfold get_conversation_history fetchMessages
  simp only [hempty, sortTsDesc, List.take_nil, selectLoop, List.map_nil, List.reverse_nil]

theorem clear_history_complete_witness :
    (∃ c ∈ exDb.conversations, c.chatId = 7 ∧ c.id = 1)
    ∧ ((get_conversation_history exCfg (clear_chat_history exDb 7 none) 7 6 none true
        (some 1) none none).1 = []
      ∧ (clear_chat_history exDb 7 none).conversations = exDb.conversations) :=
  ⟨⟨⟨1, 7, 5⟩, by decide, by decide, by decide⟩,
   clear_history_complete exCfg exDb 7 6 none true 1 none none
     ⟨⟨1, 7, 5⟩, by decide, by decide, by decide⟩⟩

end Bennet
